import Mathlib

/-!
Verification of the ticket-bot core against its specification.

Shallow embedding of the repository's core logic:
* `checkRateLimit` from `src/utils.js`
* `Ticket.claim` / `Ticket.close` from the ticket model
* `User.addRating` from the user model
* the game-session table and `GameHandler` (session lifecycle, Tic-Tac-Toe
  minimax, math-question generation, hangman guesses)
* the ticket-creation flow (`handleTicketTypeSelect` / `createTicket`)

JavaScript `Map`s are modelled as association lists, `Date.now()` as an
explicit `now : Nat` argument, `Math.random()` draws as explicit index
arguments, and thrown exceptions as `Option`/`Bool` results.
-/

set_option maxRecDepth 8000

namespace TicketBot

/-! ## Association-list maps (model of JavaScript `Map`) -/

def alistGet {β : Type} (m : List (String × β)) (key : String) : Option β :=
  match m.find? (fun kv => decide (kv.1 = key)) with
  | some kv => some kv.2
  | none => none

def alistSet {β : Type} (m : List (String × β)) (key : String) (v : β) :
    List (String × β) :=
  match m with
  | [] => [(key, v)]
  | kv :: rest => if kv.1 = key then (key, v) :: rest else kv :: alistSet rest key v

def alistDelete {β : Type} (m : List (String × β)) (key : String) :
    List (String × β) :=
  m.filter (fun kv => decide (kv.1 ≠ key))

/-! ## Rate limiter (`checkRateLimit` in `src/utils.js`) -/

structure RateLimitEntry where
  count : Nat
  resetTime : Nat
deriving DecidableEq, Repr

structure RateLimitConfig where
  WINDOW_MS : Nat
  MAX_REQUESTS : Nat
deriving DecidableEq, Repr

/-- `config.TICKET_RATE_LIMIT` from `src/config.js`. -/
def TICKET_RATE_LIMIT : RateLimitConfig := { WINDOW_MS := 60000, MAX_REQUESTS := 3 }

/-- `config.GAME_RATE_LIMIT` from `src/config.js`. -/
def GAME_RATE_LIMIT : RateLimitConfig := { WINDOW_MS := 10000, MAX_REQUESTS := 5 }

/-- `checkRateLimit(rateLimitMap, key, limits)` from `src/utils.js`.
Returns the updated map together with the boolean result
`userLimits.count <= limits.MAX_REQUESTS`. -/
def checkRateLimit (rateLimitMap : List (String × RateLimitEntry)) (key : String)
    (limits : RateLimitConfig) (now : Nat) :
    List (String × RateLimitEntry) × Bool :=
  let userLimits := (alistGet rateLimitMap key).getD
    { count := 0, resetTime := now + limits.WINDOW_MS }
  let userLimits :=
    if now > userLimits.resetTime then
      { count := 1, resetTime := now + limits.WINDOW_MS }
    else
      { userLimits with count := userLimits.count + 1 }
  (alistSet rateLimitMap key userLimits, decide (userLimits.count ≤ limits.MAX_REQUESTS))

/-! ## Ticket state transitions (`Ticket.claim` / `Ticket.close`) -/

structure TicketRow where
  userId : String
  status : String
  claimedBy : Option String := none
  claimedAt : Option Nat := none
  closedBy : Option String := none
  closedAt : Option Nat := none
  closeReason : Option String := none
  transcriptPath : Option String := none
deriving DecidableEq, Repr

/-- `Ticket.claim(ticketId, staffId)`: the conditional update
`UPDATE tickets SET claimed_by = ?, claimed_at = CURRENT_TIMESTAMP, status = 'claimed'
 WHERE ticket_id = ? AND status = 'open'`, acting on the row selected by
`ticket_id`.  The boolean is `result.changes > 0`. -/
def ticketClaim (t : TicketRow) (staffId : String) (now : Nat) : Bool × TicketRow :=
  if t.status = "open" then
    (true, { t with claimedBy := some staffId, claimedAt := some now, status := "claimed" })
  else
    (false, t)

/-- `Ticket.close(ticketId, staffId, reason, transcriptPath)`: the conditional update
`UPDATE tickets SET closed_by = ?, closed_at = CURRENT_TIMESTAMP, close_reason = ?,
 transcript_path = ?, status = 'closed'
 WHERE ticket_id = ? AND status IN ('open', 'claimed')`. -/
def ticketClose (t : TicketRow) (staffId : String) (reason : String)
    (transcriptPath : Option String) (now : Nat) : Bool × TicketRow :=
  if t.status = "open" ∨ t.status = "claimed" then
    (true, { t with closedBy := some staffId, closedAt := some now,
                    closeReason := some reason, transcriptPath := transcriptPath,
                    status := "closed" })
  else
    (false, t)

/-! ## User rating (`User.addRating`) -/

structure UserRating where
  ratingAverage : ℚ
  ratingCount : ℕ
deriving DecidableEq, Repr

/-- `User.addRating(userId, rating)`: throws when `rating < 1 || rating > 5`
(modelled as `none`), otherwise stores
`new_avg = (old_avg * old_count + rating) / (old_count + 1)` and
`new_count = old_count + 1`.  Arithmetic is modelled over `ℚ`
(the source computes with JavaScript numbers). -/
def addRating (u : UserRating) (rating : ℤ) : Option UserRating :=
  if rating < 1 ∨ rating > 5 then
    none
  else
    let newCount := u.ratingCount + 1
    let newAverage := (u.ratingAverage * (u.ratingCount : ℚ) + (rating : ℚ)) / ((newCount : ℕ) : ℚ)
    some { ratingAverage := newAverage, ratingCount := newCount }

/-! ## Ticket-creation flow (`handleTicketTypeSelect` / `createTicket`)

A ticket row together with its dedicated channel.  `createTicket` creates the
channel with topic `Ticket opened by ... (userId)`; the close flow deletes it.
`channelOpen` records whether that channel currently exists, and
`findExistingTicketByUser` (in `src/utils.js`) detects a user's ticket through
the channel topic containing the user id. -/

structure CTicket where
  owner : String
  status : String
  channelOpen : Bool
deriving DecidableEq, Repr

/-- `findExistingTicketByUser(userId, channels)`: a channel whose topic contains
`(userId)` exists.  (The permission-overwrite and name fallbacks can only find
more channels; the topic check is the one exercised by channels this bot
creates.) -/
def hasTicketChannel (ts : List CTicket) (u : String) : Bool :=
  ts.any (fun t => decide (t.owner = u) && t.channelOpen)

/-- `handleTicketTypeSelect`: after the rate-limit check, look up an existing
ticket channel for the user; if one exists the interaction is rejected,
otherwise a creation modal is shown.  No ticket state changes either way;
the result says whether the modal was shown. -/
def handleTicketTypeSelect (ts : List CTicket) (u : String) : Bool :=
  !(hasTicketChannel ts u)

/-- `createTicket` (run from the modal-submit handler `handleTicketModal`):
creates the ticket channel and persists the row with status `'open'` —
without re-running the existing-ticket lookup. -/
def createTicketSubmit (ts : List CTicket) (u : String) : List CTicket :=
  ts ++ [{ owner := u, status := "open", channelOpen := true }]

/-- `handleClaimTicket` + `Ticket.claim` applied to the ticket at position `i`. -/
def claimTicketAt (ts : List CTicket) (i : Nat) : List CTicket :=
  match ts[i]? with
  | some t => if t.status = "open" then ts.set i { t with status := "claimed" } else ts
  | none => ts

/-- `closeTicketWithReason` + `Ticket.close` applied to the ticket at position
`i`: the row becomes `'closed'` and the ticket channel is deleted. -/
def closeTicketAt (ts : List CTicket) (i : Nat) : List CTicket :=
  match ts[i]? with
  | some t =>
    if t.status = "open" ∨ t.status = "claimed" then
      ts.set i { t with status := "closed", channelOpen := false }
    else ts
  | none => ts

/-- Number of tickets owned by `u` whose status is `open` or `claimed`. -/
def openClaimedCount (ts : List CTicket) (u : String) : Nat :=
  ts.countP (fun t => decide (t.owner = u) && (decide (t.status = "open") || decide (t.status = "claimed")))

/-- Raw interaction events of the creation flow as the source exposes them:
a type-select (check only, possibly showing a modal) and a modal submit
(creation only) are separate events, so two selects may both pass before
either modal is submitted.  `pending` tracks users with an open creation
modal. -/
inductive TicketEvent
  | select (u : String)
  | submit (u : String)
  | claimTk (i : Nat)
  | closeTk (i : Nat)
deriving DecidableEq, Repr

structure TicketFlowState where
  tickets : List CTicket
  pending : List String
deriving DecidableEq, Repr

def ticketEventStep (st : TicketFlowState) : TicketEvent → TicketFlowState
  | .select u =>
    if handleTicketTypeSelect st.tickets u then { st with pending := st.pending ++ [u] } else st
  | .submit u =>
    if u ∈ st.pending then
      { tickets := createTicketSubmit st.tickets u, pending := st.pending.erase u }
    else st
  | .claimTk i => { st with tickets := claimTicketAt st.tickets i }
  | .closeTk i => { st with tickets := closeTicketAt st.tickets i }

def runTicketEvents (evs : List TicketEvent) : TicketFlowState :=
  evs.foldl ticketEventStep { tickets := [], pending := [] }

/-- The creation flow with the existing-ticket check and the modal submission
fused into one atomic operation (the amended reading of the spec). -/
inductive TicketOp
  | create (u : String)
  | claimTk (i : Nat)
  | closeTk (i : Nat)
deriving DecidableEq, Repr

def ticketOpStep (ts : List CTicket) : TicketOp → List CTicket
  | .create u => if hasTicketChannel ts u then ts else createTicketSubmit ts u
  | .claimTk i => claimTicketAt ts i
  | .closeTk i => closeTicketAt ts i

def runTicketOps (ops : List TicketOp) : List CTicket :=
  ops.foldl ticketOpStep []

/-! ## Tic-Tac-Toe (`GameHandler`) -/

inductive Player
  | X
  | O
deriving DecidableEq, Repr

/-- A board cell: `null` or a player symbol. -/
abbrev Cell := Option Player

/-- The nine-cell board array. -/
abbrev Board := List Cell

inductive Outcome
  | won (p : Player)
  | tie
deriving DecidableEq, Repr

/-- The `winPatterns` table in `checkTicTacToeWinner`. -/
def winPatterns : List (Nat × Nat × Nat) :=
  [(0, 1, 2), (3, 4, 5), (6, 7, 8),
   (0, 3, 6), (1, 4, 7), (2, 5, 8),
   (0, 4, 8), (2, 4, 6)]

/-- `board[i]` (out-of-range reads give `null`). -/
def cellAt (b : Board) (i : Nat) : Cell := b.getD i none

/-- `board[a] && board[a] === board[b] && board[a] === board[c]` for one pattern. -/
def lineWin (b : Board) (t : Nat × Nat × Nat) : Bool :=
  match cellAt b t.1 with
  | some p => decide (cellAt b t.2.1 = some p) && decide (cellAt b t.2.2 = some p)
  | none => false

/-- `checkTicTacToeWinner(board)`: the first matching pattern's symbol, else
`'tie'` when the board is full, else `null`. -/
def checkTicTacToeWinner (b : Board) : Option Outcome :=
  match winPatterns.find? (lineWin b) with
  | some t =>
    match cellAt b t.1 with
    | some p => some (Outcome.won p)
    | none => none
  | none => if b.all (fun c => decide (c ≠ none)) then some Outcome.tie else none

/-- `board.map((cell, index) => cell === null ? index : null).filter(i => i !== null)`. -/
def availableMoves (b : Board) : List Nat :=
  (List.range b.length).filter (fun i => decide (cellAt b i = none))

/-- The record returned by `minimax`: `{ index, score }` (leaves carry no index). -/
structure MMove where
  index : Option Nat
  score : Int
deriving DecidableEq, Repr

/-- `minimax(board, player, opponent, aiPlayer)` from `gameHandler`.
The JavaScript recursion terminates because every recursive call fills a cell;
`fuel` makes that measure explicit (callers pass `board.length + 1`, which
bounds the recursion depth, so the `fuel = 0` branch is never reached). -/
def minimax (fuel : Nat) (board : Board) (player opponent aiPlayer : Player) : MMove :=
  match fuel with
  | 0 => { index := none, score := 0 }
  | fuel + 1 =>
    let avail := availableMoves board
    let w := checkTicTacToeWinner board
    if w = some (Outcome.won player) then { index := none, score := 10 }
    else if w = some (Outcome.won opponent) then { index := none, score := -10 }
    else if w = some Outcome.tie then { index := none, score := 0 }
    else
      let moves := avail.map (fun m =>
        let newBoard := board.set m (some player)
        let result := minimax fuel newBoard opponent player aiPlayer
        ({ index := some m, score := result.score } : MMove))
      if player = aiPlayer then
        moves.foldl (fun best mv => if mv.score > best.score then mv else best)
          { index := none, score := -10000 }
      else
        moves.foldl (fun best mv => if mv.score < best.score then mv else best)
          { index := none, score := 10000 }

/-- `getTicTacToeAIMove` on the `'hard'` branch:
`this.minimax(board, gameState.aiPlayer, gameState.currentPlayer, gameState.aiPlayer).index`. -/
def getTicTacToeAIMoveHard (b : Board) (human ai : Player) : Option Nat :=
  (minimax (b.length + 1) b ai human ai).index

/-- Decision predicate equivalent to `(minimax ...).score = -10` on the calls the
recursion actually makes (where the player to move has not already won): the
score is `-10` exactly when every branch the minimising player steers into ends
with a completed line.  Mirrors the shape of `minimax` but short-circuits, so
it is cheap to evaluate.  Proven equivalent in `minimax_score_eq_scoreIsNeg`. -/
def scoreIsNeg (fuel : Nat) (board : Board) (player opponent aiPlayer : Player) : Bool :=
  match fuel with
  | 0 => false
  | fuel + 1 =>
    match checkTicTacToeWinner board with
    | some (Outcome.won _) => true
    | some Outcome.tie => false
    | none =>
      if player = aiPlayer then
        (availableMoves board).all
          (fun m => scoreIsNeg fuel (board.set m (some player)) opponent player aiPlayer)
      else
        (availableMoves board).any
          (fun m => scoreIsNeg fuel (board.set m (some player)) opponent player aiPlayer)

/-- Fast form of `getTicTacToeAIMoveHard` on non-terminal boards (proven equal in
`getTicTacToeAIMoveHard_eq_fast`): the first move whose subtree score is `0`,
else the first available move. -/
def hardAIMoveFast (b : Board) (human ai : Player) : Option Nat :=
  let avail := availableMoves b
  match avail.find? (fun m => !scoreIsNeg b.length (b.set m (some ai)) human ai ai) with
  | some m => some m
  | none => avail.head?

/-! ## Game sessions and the game engine state

`activeGames` is a module-level `Map` keyed by user id.  Sessions carry an
optional timeout handle; `endGame` clears it, bumps the user's `games_played`
counter and logs a `game_ended` analytics event. -/

structure GameSession where
  id : String
  gtype : String
  board : Board := []
  currentPlayer : Player := Player.X
  aiPlayer : Player := Player.O
  timeout : Option String := none
  winner : Option Outcome := none
deriving DecidableEq, Repr

structure GameEngineState where
  activeGames : List (String × GameSession)
  gamesPlayed : List (String × Nat)
  analyticsEvents : List (String × String)
  pendingTimeouts : List String
deriving DecidableEq, Repr

/-- `User.updateStats(userId, { gamesPlayed: 1 })`:
`UPDATE users SET games_played = games_played + 1 WHERE user_id = ?`. -/
def bumpGamesPlayed (stats : List (String × Nat)) (u : String) : List (String × Nat) :=
  match alistGet stats u with
  | some n => alistSet stats u (n + 1)
  | none => stats

/-- `GameHandler.endGame(gameState, result)`: clear the pending timeout (if
any), bump `games_played`, log a `game_ended` analytics event.  It does NOT
touch `activeGames`. -/
def endGame (st : GameEngineState) (gs : GameSession) (userId result : String) :
    GameEngineState :=
  let st :=
    match gs.timeout with
    | some h => { st with pendingTimeouts := st.pendingTimeouts.erase h }
    | none => st
  { st with
    gamesPlayed := bumpGamesPlayed st.gamesPlayed userId,
    analyticsEvents := st.analyticsEvents ++ [("game_ended", result)] }

/-- `GameHandler.handleGameSelect`: rejected when the rate limiter denies or
the user already has an active game; otherwise the variant's start routine
stores a fresh session under the user's key. -/
def handleGameSelect (st : GameEngineState) (userId : String) (rateOk : Bool)
    (sess : GameSession) : GameEngineState :=
  if !rateOk then st
  else if (alistGet st.activeGames userId).isSome then st
  else { st with activeGames := alistSet st.activeGames userId sess }

/-- A terminal interaction for variants other than Tic-Tac-Toe
(`handleRockPaperScissors`, `handleTrivia`, hangman/math/guess endings):
`endGame` followed by `activeGames.delete(userId)`. -/
def finishGame (st : GameEngineState) (userId result : String) : GameEngineState :=
  match alistGet st.activeGames userId with
  | some gs =>
    let st := endGame st gs userId result
    { st with activeGames := alistDelete st.activeGames userId }
  | none => st

/-- `GameHandler.endGameByTimeout(gameId)`: find the session by game id,
`endGame` with result `'timeout'`, delete it from `activeGames`. -/
def endGameByTimeout (st : GameEngineState) (gameId : String) : GameEngineState :=
  match st.activeGames.find? (fun kv => decide (kv.2.id = gameId)) with
  | some kv =>
    let st := endGame st kv.2 kv.1 "timeout"
    { st with activeGames := alistDelete st.activeGames kv.1 }
  | none => st

/-- The session-table events of the game engine, for the one-session-per-user
invariant. -/
inductive GameEvent
  | select (userId : String) (rateOk : Bool) (sess : GameSession)
  | finish (userId result : String)
  | timeoutFire (gameId : String)
deriving Repr

def gameEventStep (st : GameEngineState) : GameEvent → GameEngineState
  | .select u rateOk sess => handleGameSelect st u rateOk sess
  | .finish u r => finishGame st u r
  | .timeoutFire gid => endGameByTimeout st gid

def emptyEngine : GameEngineState :=
  { activeGames := [], gamesPlayed := [], analyticsEvents := [], pendingTimeouts := [] }

def runGameEvents (evs : List GameEvent) : GameEngineState :=
  evs.foldl gameEventStep emptyEngine

/-- `GameHandler.handleTicTacToeMove` on a hard-difficulty session: place the
player's symbol, check for a winner, let the AI move and re-check, fall back to
`'tie'` on a full board.  On a terminal board it records the winner and calls
`endGame` — and then leaves the session in `activeGames` (only the embed and
buttons are updated; there is no `activeGames.delete`). -/
def handleTicTacToeMove (st : GameEngineState) (userId : String) (moveIndex : Nat) :
    GameEngineState :=
  match alistGet st.activeGames userId with
  | none => st
  | some gs =>
    if gs.gtype ≠ "tictactoe" then st
    else if cellAt gs.board moveIndex ≠ none then st
    else
      let b1 := gs.board.set moveIndex (some gs.currentPlayer)
      let w1 := checkTicTacToeWinner b1
      let step2 : Board × Option Outcome :=
        match w1 with
        | none =>
          match getTicTacToeAIMoveHard b1 gs.currentPlayer gs.aiPlayer with
          | some m =>
            let b2 := b1.set m (some gs.aiPlayer)
            (b2, checkTicTacToeWinner b2)
          | none => (b1, w1)
        | some _ => (b1, w1)
      let b2 := step2.1
      let w2 :=
        match step2.2 with
        | none => if b2.all (fun c => decide (c ≠ none)) then some Outcome.tie else none
        | some w => some w
      match w2 with
      | some w =>
        let result :=
          if w = Outcome.tie then "tie"
          else if w = Outcome.won gs.currentPlayer then "win"
          else "lose"
        let st := endGame st gs userId result
        { st with activeGames :=
            alistSet st.activeGames userId { gs with board := b2, winner := some w } }
      | none =>
        { st with activeGames :=
            alistSet st.activeGames userId { gs with board := b2 } }

/-- The empty board `Array(9).fill(null)`. -/
def emptyBoard : Board := List.replicate 9 none

/-- A Tic-Tac-Toe session one move away from a human win: `X X _ / O O _ / _ _ _`
with the human (`X`) about to press cell 2. -/
def nearWinSession : GameSession :=
  { id := "g1", gtype := "tictactoe",
    board := [some Player.X, some Player.X, none, some Player.O,
              some Player.O, none, none, none, none] }

/-- An engine state holding `nearWinSession` for `"user1"`. -/
def nearWinState : GameEngineState :=
  { activeGames := [("user1", nearWinSession)],
    gamesPlayed := [("user1", 0)],
    analyticsEvents := [],
    pendingTimeouts := [] }

/-- Play a sequence of human moves against the hard AI, starting from a given
board, following `handleTicTacToeMove`: human move, winner check, AI reply,
winner check; stop at the first terminal board. -/
def runHardGame (human ai : Player) (b : Board) : List Nat → Board × Option Outcome
  | [] => (b, checkTicTacToeWinner b)
  | m :: rest =>
    if cellAt b m ≠ none then runHardGame human ai b rest
    else
      let b1 := b.set m (some human)
      match checkTicTacToeWinner b1 with
      | some w => (b1, some w)
      | none =>
        match getTicTacToeAIMoveHard b1 human ai with
        | some k =>
          let b2 := b1.set k (some ai)
          match checkTicTacToeWinner b2 with
          | some w => (b2, some w)
          | none => runHardGame human ai b2 rest
        | none => runHardGame human ai b1 rest

/-- `runHardGame` with the AI reply computed by `hardAIMoveFast`; proven to
agree with `runHardGame` in `runHardGame_eq_fast`. -/
def runHardGameFast (human ai : Player) (b : Board) : List Nat → Board × Option Outcome
  | [] => (b, checkTicTacToeWinner b)
  | m :: rest =>
    if cellAt b m ≠ none then runHardGameFast human ai b rest
    else
      let b1 := b.set m (some human)
      match checkTicTacToeWinner b1 with
      | some w => (b1, some w)
      | none =>
        match hardAIMoveFast b1 human ai with
        | some k =>
          let b2 := b1.set k (some ai)
          match checkTicTacToeWinner b2 with
          | some w => (b2, some w)
          | none => runHardGameFast human ai b2 rest
        | none => runHardGameFast human ai b1 rest

/-! ## Math challenge (`generateMathQuestion`, `handleMathAnswer`) -/

structure MathDifficultyConfig where
  range : Nat
  includeMultiplication : Bool := false
deriving DecidableEq, Repr

/-- `config.GAMES.MATH.DIFFICULTIES` from `src/config.js`. -/
def MATH_DIFFICULTIES : String → Option MathDifficultyConfig
  | "easy" => some { range := 10 }
  | "normal" => some { range := 50 }
  | "hard" => some { range := 100, includeMultiplication := true }
  | _ => none

structure MathQuestion where
  num1 : Nat
  op : String
  num2 : Nat
deriving DecidableEq, Repr

/-- `generateMathQuestion(difficulty)`.  The three `Math.random()` draws are
modelled by explicit indices (`rOp` selects the operation, `r1`/`r2` the
operands), reduced modulo the relevant size exactly as
`Math.floor(Math.random() * n)` ranges over `0 .. n-1`. -/
def generateMathQuestion (difficulty : String) (rOp r1 r2 : Nat) : Option MathQuestion :=
  (MATH_DIFFICULTIES difficulty).map (fun diffConfig =>
    let operations := ["+", "-", "*"]
    let operations :=
      if diffConfig.includeMultiplication then operations ++ ["*"] else operations
    let operation := operations.getD (rOp % operations.length) "+"
    let num1 := r1 % diffConfig.range + 1
    let num2 := r2 % diffConfig.range + 1
    { num1 := num1, op := operation, num2 := num2 })

/-- `calculateMathAnswer` (`eval(question)`) on the generated `num1 OP num2`. -/
def calculateMathAnswer (q : MathQuestion) : Int :=
  if q.op = "+" then (q.num1 : Int) + q.num2
  else if q.op = "-" then (q.num1 : Int) - q.num2
  else (q.num1 : Int) * q.num2

/-- `handleMathAnswer`: one attempt (`maxAttempts = 1`), exact equality with the
precomputed answer; a parse failure consumes nothing.  Returns the result
(`none` means the game continues, which cannot happen with one attempt). -/
def handleMathAnswer (answer : Int) (userAnswer : Option Int) (attempts maxAttempts : Nat) :
    Option String × Nat :=
  match userAnswer with
  | none => (none, attempts)
  | some n =>
    let attempts := attempts + 1
    if n = answer then (some "win", attempts)
    else if attempts ≥ maxAttempts then (some "lose", attempts)
    else (none, attempts)

/-! ## Hangman (`handleHangmanGuessModal` in `gameHandler`) -/

structure HangmanSession where
  word : List Char
  guessed : List Char
  wrongGuesses : Nat
  maxWrongGuesses : Nat
  display : List Char
deriving DecidableEq, Repr

inductive HangmanReply
  | invalidLetter
  | noGame
  | alreadyGuessed
  | continued
  | ended (result : String)
deriving DecidableEq, Repr

/-- The `/^[a-z]$/` test. -/
def isLowerAZ (c : Char) : Bool := decide ('a' ≤ c) && decide (c ≤ 'z')

/-- The body of `handleHangmanGuessModal` past the guards: reject an input
already guessed, otherwise record the guess, reveal matches or bump the
wrong-guess counter, and end the game on a full reveal or on reaching the
limit (terminal paths run `endGame` and delete the session, modelled by
returning `none`). -/
def hangmanApplyGuess (gs : HangmanSession) (letter : Char) :
    HangmanReply × Option HangmanSession :=
  if letter ∈ gs.guessed then (.alreadyGuessed, some gs)
  else
    let gs1 := { gs with guessed := gs.guessed ++ [letter] }
    let gs2 :=
      if letter ∈ gs1.word then
        { gs1 with display := gs1.word.map (fun ch => if ch ∈ gs1.guessed then ch else '_') }
      else
        { gs1 with wrongGuesses := gs1.wrongGuesses + 1 }
    if gs2.display = gs2.word then (.ended "win", none)
    else if gs2.wrongGuesses ≥ gs2.maxWrongGuesses then (.ended "lose", none)
    else (.continued, some gs2)

/-- `handleHangmanGuessModal`: lowercase the input, validate it against
`/^[a-z]$/`, require an active hangman session, then apply the guess. -/
def handleHangmanGuessModal (game : Option HangmanSession) (input : Char) :
    HangmanReply × Option HangmanSession :=
  let letter := input.toLower
  if !isLowerAZ letter then (.invalidLetter, game)
  else
    match game with
    | none => (.noGame, none)
    | some gs => hangmanApplyGuess gs letter

/-! ## Theorems -/

/-- Claim C7: `checkRateLimit` is a fixed-window counter.  Past the stored
reset time the count resets to 1, the reset time becomes `now + WINDOW_MS` and
the call is allowed; otherwise the count is incremented and the call is allowed
iff `count ≤ MAX_REQUESTS`; a missing entry behaves like a fresh window.  With
`MAX_REQUESTS = 3`, `WINDOW_MS = 60000`: three calls inside one window are
allowed, the fourth is denied, and the first call after the window elapses is
allowed with the counter reset to 1. -/
theorem checkRateLimit_fixed_window
    (m : List (String × RateLimitEntry)) (key : String)
    (limits : RateLimitConfig) (now : Nat) (hM : 1 ≤ limits.MAX_REQUESTS) :
    (∀ e, alistGet m key = some e → now > e.resetTime →
      checkRateLimit m key limits now =
        (alistSet m key { count := 1, resetTime := now + limits.WINDOW_MS }, true)) ∧
    (∀ e, alistGet m key = some e → ¬ now > e.resetTime →
      checkRateLimit m key limits now =
        (alistSet m key { count := e.count + 1, resetTime := e.resetTime },
         decide (e.count + 1 ≤ limits.MAX_REQUESTS))) ∧
    (alistGet m key = none →
      checkRateLimit m key limits now =
        (alistSet m key { count := 1, resetTime := now + limits.WINDOW_MS }, true)) ∧
    ((checkRateLimit [] "u1" TICKET_RATE_LIMIT 1000).2 = true ∧
     (checkRateLimit (checkRateLimit [] "u1" TICKET_RATE_LIMIT 1000).1 "u1"
        TICKET_RATE_LIMIT 2000).2 = true ∧
     (checkRateLimit (checkRateLimit (checkRateLimit [] "u1" TICKET_RATE_LIMIT 1000).1 "u1"
        TICKET_RATE_LIMIT 2000).1 "u1" TICKET_RATE_LIMIT 3000).2 = true ∧
     (checkRateLimit (checkRateLimit (checkRateLimit (checkRateLimit [] "u1"
        TICKET_RATE_LIMIT 1000).1 "u1" TICKET_RATE_LIMIT 2000).1 "u1"
        TICKET_RATE_LIMIT 3000).1 "u1" TICKET_RATE_LIMIT 4000).2 = false ∧
     checkRateLimit (checkRateLimit (checkRateLimit (checkRateLimit (checkRateLimit [] "u1"
        TICKET_RATE_LIMIT 1000).1 "u1" TICKET_RATE_LIMIT 2000).1 "u1"
        TICKET_RATE_LIMIT 3000).1 "u1" TICKET_RATE_LIMIT 4000).1 "u1"
        TICKET_RATE_LIMIT 61001 =
       ([("u1", { count := 1, resetTime := 121001 })], true)) := by
  refine ⟨?_, ?_, ?_, by decide⟩
  · intro e he hnow
    rw [show (true : Bool) = decide (1 ≤ limits.MAX_REQUESTS) from
      (decide_eq_true hM).symm]
    simp only [checkRateLimit, he, Option.getD_some, if_pos hnow]
  · intro e he hnow
    simp only [checkRateLimit, he, Option.getD_some, if_neg hnow]
  · intro he
    have hnow : ¬ now > now + limits.WINDOW_MS := by omega
    rw [show (true : Bool) = decide (1 ≤ limits.MAX_REQUESTS) from
      (decide_eq_true hM).symm]
    simp only [checkRateLimit, he, Option.getD_none, if_neg hnow]

/-- Witness for C7: a stored entry whose window has expired is reset to
count 1 and allowed. -/
theorem checkRateLimit_fixed_window_witness :
    checkRateLimit [("u1", { count := 3, resetTime := 61000 })] "u1"
        TICKET_RATE_LIMIT 61001 =
      (alistSet [("u1", { count := 3, resetTime := 61000 })] "u1"
        { count := 1, resetTime := 61001 + TICKET_RATE_LIMIT.WINDOW_MS }, true) :=
  (checkRateLimit_fixed_window [("u1", { count := 3, resetTime := 61000 })] "u1"
    TICKET_RATE_LIMIT 61001 (by decide)).1
    { count := 3, resetTime := 61000 } (by decide) (by decide)

/-- Claim C4: `Ticket.claim` succeeds exactly on status `'open'` (recording
`claimed_by`/`claimed_at` and moving to `'claimed'`); `Ticket.close` succeeds
exactly on `'open'` or `'claimed'` (recording `closed_by`/`closed_at`/
`close_reason` and moving to `'closed'`); `'closed'` is terminal; failing calls
mutate nothing; closing twice succeeds once and fails thereafter. -/
theorem ticket_claim_close_transitions (t : TicketRow)
    (staffId staffId2 reason reason2 : String) (tp tp2 : Option String)
    (now now2 : Nat) :
    ((ticketClaim t staffId now).1 = true ↔ t.status = "open") ∧
    (t.status = "open" →
      ticketClaim t staffId now =
        (true, { t with claimedBy := some staffId, claimedAt := some now,
                        status := "claimed" })) ∧
    (t.status ≠ "open" → ticketClaim t staffId now = (false, t)) ∧
    ((ticketClose t staffId reason tp now).1 = true ↔
      (t.status = "open" ∨ t.status = "claimed")) ∧
    (t.status = "open" ∨ t.status = "claimed" →
      ticketClose t staffId reason tp now =
        (true, { t with closedBy := some staffId, closedAt := some now,
                        closeReason := some reason, transcriptPath := tp,
                        status := "closed" })) ∧
    (¬(t.status = "open" ∨ t.status = "claimed") →
      ticketClose t staffId reason tp now = (false, t)) ∧
    (t.status = "closed" →
      ticketClaim t staffId now = (false, t) ∧
      ticketClose t staffId reason tp now = (false, t)) ∧
    (t.status = "open" ∨ t.status = "claimed" →
      ticketClose (ticketClose t staffId reason tp now).2 staffId2 reason2 tp2 now2 =
        (false, (ticketClose t staffId reason tp now).2)) := by
  refine ⟨?_, ?_, ?_, ?_, ?_, ?_, ?_, ?_⟩
  · unfold ticketClaim; split <;> simp_all
  · intro h; simp [ticketClaim, h]
  · intro h; simp [ticketClaim, h]
  · unfold ticketClose; split <;> simp_all
  · intro h; simp [ticketClose, h]
  · intro h; simp [ticketClose, h]
  · intro h
    exact ⟨by simp [ticketClaim, h], by simp [ticketClose, h]⟩
  · intro h; simp [ticketClose, h]

/-- Witness for C4: an open ticket is claimed, a claimed ticket is closed, and
the second close fails. -/
theorem ticket_claim_close_transitions_witness :
    (ticketClaim { userId := "u1", status := "open" } "s1" 10 =
      (true, { userId := "u1", status := "claimed",
               claimedBy := some "s1", claimedAt := some 10 })) ∧
    (ticketClose { userId := "u1", status := "claimed" } "s1" "resolved" none 20 =
      (true, { userId := "u1", status := "closed", closedBy := some "s1",
               closedAt := some 20, closeReason := some "resolved",
               transcriptPath := none })) ∧
    ticketClose (ticketClose { userId := "u1", status := "claimed" } "s1" "resolved" none 20).2
        "s2" "again" none 30 =
      (false, (ticketClose { userId := "u1", status := "claimed" } "s1" "resolved" none 20).2) :=
  ⟨(ticket_claim_close_transitions { userId := "u1", status := "open" }
      "s1" "s2" "r" "r2" none none 10 30).2.1 (by decide),
   (ticket_claim_close_transitions { userId := "u1", status := "claimed" }
      "s1" "s2" "resolved" "again" none none 20 30).2.2.2.2.1 (Or.inr (by decide)),
   (ticket_claim_close_transitions { userId := "u1", status := "claimed" }
      "s1" "s2" "resolved" "again" none none 20 30).2.2.2.2.2.2.2 (Or.inr (by decide))⟩

/-- Claim C6: `User.addRating` with `1 ≤ r ≤ 5` stores the running mean
`(avg * count + r) / (count + 1)` and count `count + 1`; out-of-range ratings
fail and change nothing.  From `(avg, count) = (4, 2)`, rating 5 gives
`(13/3, 3)`; ratings 0 and 6 fail. -/
theorem addRating_running_mean (u : UserRating) (r : ℤ)
    (h1 : 1 ≤ r) (h5 : r ≤ 5) :
    addRating u r =
      some { ratingAverage := (u.ratingAverage * (u.ratingCount : ℚ) + (r : ℚ)) /
               ((u.ratingCount : ℚ) + 1),
             ratingCount := u.ratingCount + 1 } ∧
    (∀ (v : UserRating) (s : ℤ), s < 1 ∨ s > 5 → addRating v s = none) ∧
    addRating { ratingAverage := 4, ratingCount := 2 } 5 =
      some { ratingAverage := 13/3, ratingCount := 3 } ∧
    addRating { ratingAverage := 4, ratingCount := 2 } 0 = none ∧
    addRating { ratingAverage := 4, ratingCount := 2 } 6 = none := by
  refine ⟨?_, ?_, ?_, by norm_num [addRating], by norm_num [addRating]⟩
  · have hno : ¬ (r < 1 ∨ r > 5) := by omega
    simp only [addRating, if_neg hno, Option.some.injEq]
    congr 1
    push_cast
    ring
  · intro v s hs
    simp [addRating, hs]
  · norm_num [addRating]

/-- Witness for C6: the concrete `(4, 2)` + rating 5 instance of the running
mean, through the theorem. -/
theorem addRating_running_mean_witness :
    addRating { ratingAverage := 4, ratingCount := 2 } 5 =
      some { ratingAverage := (4 * ((2 : ℕ) : ℚ) + ((5 : ℤ) : ℚ)) / (((2 : ℕ) : ℚ) + 1),
             ratingCount := 3 } :=
  (addRating_running_mean { ratingAverage := 4, ratingCount := 2 } 5
    (by norm_num) (by norm_num)).1

/-- Claim C9 (code bug): the configuration gives multiplication only to
`'hard'` (`includeMultiplication` is absent for `'easy'`/`'normal'`), but
`generateMathQuestion` starts from `operations = ['+', '-', '*']`, so the
third `Math.random()` outcome produces a multiplication question at every
difficulty — here at `'easy'`. -/
theorem mathQuestion_multiplication_on_easy :
    MATH_DIFFICULTIES "easy" = some { range := 10, includeMultiplication := false } ∧
    generateMathQuestion "easy" 2 0 0 = some { num1 := 1, op := "*", num2 := 1 } ∧
    (generateMathQuestion "easy" 2 0 0).map calculateMathAnswer = some 1 := by
  decide

/-- Claim C10: a guess of a letter already guessed is rejected with a notice
and the session is returned exactly as it was: same guessed set, same
wrong-guess counter, same display, and the game does not end. -/
theorem hangman_repeated_guess_unchanged (gs : HangmanSession) (input : Char)
    (hvalid : isLowerAZ input.toLower = true) (hdup : input.toLower ∈ gs.guessed) :
    handleHangmanGuessModal (some gs) input = (HangmanReply.alreadyGuessed, some gs) := by
  simp [handleHangmanGuessModal, hvalid, hangmanApplyGuess, hdup]

/-- Witness for C10: guessing `'A'` again in a game where `'a'` was already
guessed leaves the game untouched. -/
theorem hangman_repeated_guess_unchanged_witness :
    handleHangmanGuessModal
        (some { word := ['c', 'a', 't'], guessed := ['a'], wrongGuesses := 2,
                maxWrongGuesses := 6, display := ['_', 'a', '_'] }) 'A' =
      (HangmanReply.alreadyGuessed,
       some { word := ['c', 'a', 't'], guessed := ['a'], wrongGuesses := 2,
              maxWrongGuesses := 6, display := ['_', 'a', '_'] }) :=
  hangman_repeated_guess_unchanged
    { word := ['c', 'a', 't'], guessed := ['a'], wrongGuesses := 2,
      maxWrongGuesses := 6, display := ['_', 'a', '_'] } 'A'
    (by decide) (by decide)

/-- Claim C1 (code bug): after a terminal Tic-Tac-Toe move the handler runs
`endGame` (the `games_played` counter is bumped and a `game_ended` event is
logged) but never deletes the session: the user's entry is still in
`activeGames` although its board holds the finished game. -/
theorem tictactoe_session_left_active :
    (alistGet (handleTicTacToeMove nearWinState "user1" 2).activeGames "user1").isSome
        = true ∧
    (handleTicTacToeMove nearWinState "user1" 2).gamesPlayed = [("user1", 1)] ∧
    (handleTicTacToeMove nearWinState "user1" 2).analyticsEvents =
      [("game_ended", "win")] ∧
    ((alistGet (handleTicTacToeMove nearWinState "user1" 2).activeGames "user1").map
        GameSession.winner) = some (some (Outcome.won Player.X)) := by
  decide

/-- Counterexample for C5: the existing-ticket lookup runs only in
`handleTicketTypeSelect`; `createTicket` (the modal submit) creates
unconditionally.  Two type-selects before either modal is submitted thus
produce two open tickets for the same user. -/
theorem ticket_double_submit_two_open :
    ¬ (openClaimedCount (runTicketEvents
        [TicketEvent.select "u1", TicketEvent.select "u1",
         TicketEvent.submit "u1", TicketEvent.submit "u1"]).tickets "u1" ≤ 1) := by
  decide

/-- Counterexample for C3: in the recursion, terminal utility is computed
relative to the player to move, not to the AI.  At a leaf where the AI (`O`)
has won but the human (`X`) is to move, `minimax` returns score `-10`, not
`+10`. -/
theorem minimax_leaf_score_mover_relative :
    checkTicTacToeWinner [some Player.O, some Player.O, some Player.O,
        some Player.X, some Player.X, none, none, none, some Player.X] =
      some (Outcome.won Player.O) ∧
    minimax 4 [some Player.O, some Player.O, some Player.O,
        some Player.X, some Player.X, none, none, none, some Player.X]
        Player.X Player.O Player.O =
      { index := none, score := -10 } := by
  decide

/-! ### The session table holds at most one entry per user (C8) -/

theorem alistSet_keys_subset {β : Type} (m : List (String × β)) (k x : String) (v : β)
    (hx : x ∈ (alistSet m k v).map Prod.fst) : x ∈ m.map Prod.fst ∨ x = k := by
  induction m with
  | nil => simpa [alistSet] using hx
  | cons kv rest ih =>
    by_cases h : kv.1 = k
    · rw [alistSet, if_pos h, List.map_cons, List.mem_cons] at hx
      rcases hx with h1 | h1
      · exact Or.inr h1
      · exact Or.inl (by simp [h1])
    · rw [alistSet, if_neg h, List.map_cons, List.mem_cons] at hx
      rcases hx with h1 | h1
      · exact Or.inl (by simp [h1])
      · rcases ih h1 with h2 | h2
        · exact Or.inl (by simp [h2])
        · exact Or.inr h2

theorem alistSet_keys_nodup {β : Type} (m : List (String × β)) (k : String) (v : β)
    (h : (m.map Prod.fst).Nodup) : ((alistSet m k v).map Prod.fst).Nodup := by
  induction m with
  | nil => simp [alistSet]
  | cons kv rest ih =>
    rw [List.map_cons, List.nodup_cons] at h
    by_cases hk : kv.1 = k
    · rw [alistSet, if_pos hk, List.map_cons, List.nodup_cons]
      exact ⟨hk ▸ h.1, h.2⟩
    · rw [alistSet, if_neg hk, List.map_cons, List.nodup_cons]
      refine ⟨fun hmem => ?_, ih h.2⟩
      rcases alistSet_keys_subset rest k kv.1 v hmem with h1 | h1
      · exact h.1 h1
      · exact hk h1

theorem alistDelete_keys_nodup {β : Type} (m : List (String × β)) (k : String)
    (h : (m.map Prod.fst).Nodup) : ((alistDelete m k).map Prod.fst).Nodup :=
  ((List.filter_sublist m).map Prod.fst).nodup h

theorem nodup_keys_countP_le_one {β : Type} (m : List (String × β)) (u : String)
    (h : (m.map Prod.fst).Nodup) :
    m.countP (fun kv => decide (kv.1 = u)) ≤ 1 := by
  induction m with
  | nil => simp
  | cons kv rest ih =>
    rw [List.map_cons, List.nodup_cons] at h
    rw [List.countP_cons]
    by_cases hk : kv.1 = u
    · have hz : rest.countP (fun kv => decide (kv.1 = u)) = 0 := by
        rw [List.countP_eq_zero]
        intro a ha
        simp only [decide_eq_true_eq]
        intro hau
        exact h.1 (hk ▸ hau ▸ List.mem_map_of_mem Prod.fst ha)
      simp [hz, hk]
    · have := ih h.2
      simp [hk]
      omega

theorem endGame_activeGames (st : GameEngineState) (gs : GameSession)
    (u r : String) : (endGame st gs u r).activeGames = st.activeGames := by
  cases h : gs.timeout <;> simp [endGame, h]

theorem gameEventStep_keys_nodup (st : GameEngineState) (ev : GameEvent)
    (h : (st.activeGames.map Prod.fst).Nodup) :
    ((gameEventStep st ev).activeGames.map Prod.fst).Nodup := by
  cases ev with
  | select u rateOk sess =>
    cases rateOk with
    | false => simpa [gameEventStep, handleGameSelect] using h
    | true =>
      by_cases hs : (alistGet st.activeGames u).isSome
      · simpa [gameEventStep, handleGameSelect, hs] using h
      · simp only [gameEventStep, handleGameSelect, Bool.not_true, if_neg, hs,
          Bool.false_eq_true, if_false]
        exact alistSet_keys_nodup _ _ _ h
  | finish u r =>
    rw [gameEventStep, finishGame]
    cases hg : alistGet st.activeGames u with
    | none => exact h
    | some gs =>
      simp only [endGame_activeGames]
      exact alistDelete_keys_nodup _ _ h
  | timeoutFire gid =>
    rw [gameEventStep, endGameByTimeout]
    cases hf : st.activeGames.find? (fun kv => decide (kv.2.id = gid)) with
    | none => exact h
    | some kv =>
      simp only [endGame_activeGames]
      exact alistDelete_keys_nodup _ _ h

theorem runGameEvents_keys_nodup (evs : List GameEvent) :
    ((runGameEvents evs).activeGames.map Prod.fst).Nodup := by
  rw [runGameEvents]
  have h : ∀ (st : GameEngineState), (st.activeGames.map Prod.fst).Nodup →
      ((evs.foldl gameEventStep st).activeGames.map Prod.fst).Nodup := by
    induction evs with
    | nil => intro st hst; exact hst
    | cons ev rest ih =>
      intro st hst
      rw [List.foldl_cons]
      exact ih _ (gameEventStep_keys_nodup st ev hst)
  exact h emptyEngine (by simp [emptyEngine])

/-- Claim C8: the session table is keyed by user id, so after any sequence of
game events a user has at most one session; and a game-start while a session
exists is rejected leaving the table untouched (neither replaced nor added). -/
theorem one_session_per_user (evs : List GameEvent) (u : String) :
    (runGameEvents evs).activeGames.countP (fun kv => decide (kv.1 = u)) ≤ 1 ∧
    (∀ (st : GameEngineState) (rateOk : Bool) (sess : GameSession),
      (alistGet st.activeGames u).isSome = true →
      handleGameSelect st u rateOk sess = st) := by
  constructor
  · exact nodup_keys_countP_le_one _ _ (runGameEvents_keys_nodup evs)
  · intro st rateOk sess hs
    cases rateOk with
    | false => simp [handleGameSelect]
    | true => simp [handleGameSelect, hs]

/-- Witness for C8: two starts for `"u1"`; the second is rejected and exactly
one session is held. -/
theorem one_session_per_user_witness :
    (runGameEvents [GameEvent.select "u1" true { id := "a", gtype := "rps" },
        GameEvent.select "u1" true { id := "b", gtype := "math" }]).activeGames.countP
      (fun kv => decide (kv.1 = "u1")) ≤ 1 ∧
    handleGameSelect
        { activeGames := [("u1", { id := "a", gtype := "rps" })], gamesPlayed := [],
          analyticsEvents := [], pendingTimeouts := [] } "u1" true
        { id := "b", gtype := "math" } =
      { activeGames := [("u1", { id := "a", gtype := "rps" })], gamesPlayed := [],
        analyticsEvents := [], pendingTimeouts := [] } :=
  ⟨(one_session_per_user [GameEvent.select "u1" true { id := "a", gtype := "rps" },
      GameEvent.select "u1" true { id := "b", gtype := "math" }] "u1").1,
   (one_session_per_user [] "u1").2
     { activeGames := [("u1", { id := "a", gtype := "rps" })], gamesPlayed := [],
       analyticsEvents := [], pendingTimeouts := [] } true
     { id := "b", gtype := "math" } (by decide)⟩

/-! ### One open-or-claimed ticket per user under atomic creation (C5) -/

theorem countP_set_eq {α : Type} (l : List α) (i : Nat) (t t' : α) (p : α → Bool)
    (h : l[i]? = some t) :
    (l.set i t').countP p + (if p t then 1 else 0) =
      l.countP p + (if p t' then 1 else 0) := by
  induction l generalizing i with
  | nil => simp at h
  | cons a rest ih =>
    cases i with
    | zero =>
      rw [List.getElem?_cons_zero, Option.some.injEq] at h
      subst h
      simp only [List.set, List.countP_cons]
      omega
    | succ n =>
      rw [List.getElem?_cons_succ] at h
      simp only [List.set, List.countP_cons]
      have := ih n h
      omega

theorem ticketOpStep_invariant (ts : List CTicket) (op : TicketOp)
    (h1 : ∀ u, openClaimedCount ts u ≤ 1)
    (h2 : ∀ t ∈ ts, (t.status = "open" ∨ t.status = "claimed") → t.channelOpen = true) :
    (∀ u, openClaimedCount (ticketOpStep ts op) u ≤ 1) ∧
    (∀ t ∈ ticketOpStep ts op, (t.status = "open" ∨ t.status = "claimed") →
      t.channelOpen = true) := by
  cases op with
  | create u =>
    by_cases hc : hasTicketChannel ts u = true
    · simpa [ticketOpStep, hc] using ⟨h1, h2⟩
    · rw [ticketOpStep, if_neg (by simpa using hc)]
      constructor
      · intro u'
        rw [createTicketSubmit, openClaimedCount, List.countP_append]
        by_cases hu : u' = u
        · subst hu
          have hz : openClaimedCount ts u' = 0 := by
            rw [openClaimedCount, List.countP_eq_zero]
            intro t ht hpt
            simp only [Bool.and_eq_true, Bool.or_eq_true, decide_eq_true_eq] at hpt
            apply hc
            rw [hasTicketChannel, List.any_eq_true]
            refine ⟨t, ht, ?_⟩
            rw [Bool.and_eq_true, decide_eq_true_eq]
            exact ⟨hpt.1, h2 t ht hpt.2⟩
          rw [openClaimedCount] at hz
          simp [hz]
        · have hne : ¬ u = u' := fun h => hu h.symm
          have hone : List.countP (fun t => decide (t.owner = u') &&
              (decide (t.status = "open") || decide (t.status = "claimed")))
              [({ owner := u, status := "open", channelOpen := true } : CTicket)] = 0 := by
            simp [hne]
          rw [hone]
          simpa [openClaimedCount] using h1 u'
      · intro t ht hot
        rw [createTicketSubmit, List.mem_append] at ht
        rcases ht with ht | ht
        · exact h2 t ht hot
        · simp only [List.mem_singleton] at ht
          subst ht
          rfl
  | claimTk i =>
    cases hgi : ts[i]? with
    | none => simpa [ticketOpStep, claimTicketAt, hgi] using ⟨h1, h2⟩
    | some t =>
      by_cases hst : t.status = "open"
      · simp only [ticketOpStep, claimTicketAt, hgi, if_pos hst]
        constructor
        · intro u'
          have hcount := countP_set_eq ts i t { t with status := "claimed" }
            (fun t => decide (t.owner = u') &&
              (decide (t.status = "open") || decide (t.status = "claimed"))) hgi
          have e1 : ((fun t => decide (t.owner = u') &&
              (decide (t.status = "open") || decide (t.status = "claimed"))) t)
              = decide (t.owner = u') := by
            simp [hst]
          have e2 : ((fun t => decide (t.owner = u') &&
              (decide (t.status = "open") || decide (t.status = "claimed")))
              ({ t with status := "claimed" } : CTicket)) = decide (t.owner = u') := by
            simp
          rw [e1, e2] at hcount
          simp only [openClaimedCount] at h1 ⊢
          have h1u := h1 u'
          omega
        · intro x hx hox
          rcases List.mem_or_eq_of_mem_set hx with hmem | hx'
          · exact h2 x hmem hox
          · subst hx'
            exact h2 t (List.getElem?_mem hgi) (Or.inl hst)
      · simpa [ticketOpStep, claimTicketAt, hgi, if_neg hst] using ⟨h1, h2⟩
  | closeTk i =>
    cases hgi : ts[i]? with
    | none => simpa [ticketOpStep, closeTicketAt, hgi] using ⟨h1, h2⟩
    | some t =>
      by_cases hst : t.status = "open" ∨ t.status = "claimed"
      · simp only [ticketOpStep, closeTicketAt, hgi, if_pos hst]
        constructor
        · intro u'
          have hcount := countP_set_eq ts i t
            { t with status := "closed", channelOpen := false }
            (fun t => decide (t.owner = u') &&
              (decide (t.status = "open") || decide (t.status = "claimed"))) hgi
          have e2 : ((fun t => decide (t.owner = u') &&
              (decide (t.status = "open") || decide (t.status = "claimed")))
              ({ t with status := "closed", channelOpen := false } : CTicket)) = false := by
            simp
          rw [e2] at hcount
          simp only [Bool.false_eq_true, if_false] at hcount
          simp only [openClaimedCount] at h1 ⊢
          have h1u := h1 u'
          omega
        · intro x hx hox
          rcases List.mem_or_eq_of_mem_set hx with hmem | hx'
          · exact h2 x hmem hox
          · exfalso
            subst hx'
            simp at hox
      · simpa [ticketOpStep, closeTicketAt, hgi, if_neg hst] using ⟨h1, h2⟩

theorem runTicketOps_invariant (ops : List TicketOp) :
    (∀ u, openClaimedCount (runTicketOps ops) u ≤ 1) ∧
    (∀ t ∈ runTicketOps ops, (t.status = "open" ∨ t.status = "claimed") →
      t.channelOpen = true) := by
  rw [runTicketOps]
  have h : ∀ (ts : List CTicket),
      (∀ u, openClaimedCount ts u ≤ 1) →
      (∀ t ∈ ts, (t.status = "open" ∨ t.status = "claimed") → t.channelOpen = true) →
      (∀ u, openClaimedCount (ops.foldl ticketOpStep ts) u ≤ 1) ∧
      (∀ t ∈ ops.foldl ticketOpStep ts, (t.status = "open" ∨ t.status = "claimed") →
        t.channelOpen = true) := by
    induction ops with
    | nil => intro ts hts1 hts2; exact ⟨hts1, hts2⟩
    | cons op rest ih =>
      intro ts hts1 hts2
      rw [List.foldl_cons]
      have hstep := ticketOpStep_invariant ts op hts1 hts2
      exact ih _ hstep.1 hstep.2
  exact h [] (fun u => by simp [openClaimedCount]) (by simp)

/-- Amended claim C5: with the select-time existing-ticket check and the
modal-submit creation fused into one atomic `create` (no second type-select by
the same user in between), every sequence of create/claim/close operations
leaves each user with at most one ticket in status `open` or `claimed`; and
while such a ticket exists, a further `create` for that user is rejected and
changes nothing. -/
theorem one_open_ticket_per_user (ops : List TicketOp) (u : String) :
    openClaimedCount (runTicketOps ops) u ≤ 1 ∧
    (1 ≤ openClaimedCount (runTicketOps ops) u →
      ticketOpStep (runTicketOps ops) (TicketOp.create u) = runTicketOps ops) := by
  have hinv := runTicketOps_invariant ops
  refine ⟨hinv.1 u, fun hpos => ?_⟩
  have hex : ∃ t ∈ runTicketOps ops,
      (decide (t.owner = u) &&
        (decide (t.status = "open") || decide (t.status = "claimed"))) = true := by
    rw [← List.countP_pos]
    rw [openClaimedCount] at hpos
    omega
  obtain ⟨t, ht, hpt⟩ := hex
  simp only [Bool.and_eq_true, Bool.or_eq_true, decide_eq_true_eq] at hpt
  have hchan : hasTicketChannel (runTicketOps ops) u = true := by
    rw [hasTicketChannel, List.any_eq_true]
    refine ⟨t, ht, ?_⟩
    rw [Bool.and_eq_true, decide_eq_true_eq]
    exact ⟨hpt.1, hinv.2 t ht hpt.2⟩
  rw [ticketOpStep, if_pos (by simpa using hchan)]

/-- Witness for C5 (amended): after one atomic creation for `"u1"` the count is
1 and a second creation is a no-op. -/
theorem one_open_ticket_per_user_witness :
    openClaimedCount (runTicketOps [TicketOp.create "u1"]) "u1" ≤ 1 ∧
    ticketOpStep (runTicketOps [TicketOp.create "u1"]) (TicketOp.create "u1") =
      runTicketOps [TicketOp.create "u1"] :=
  ⟨(one_open_ticket_per_user [TicketOp.create "u1"] "u1").1,
   (one_open_ticket_per_user [TicketOp.create "u1"] "u1").2 (by decide)⟩

/-! ### Tic-Tac-Toe board lemmas -/

theorem Player.eq_of_ne_of_ne (w p o : Player) (hw : w ≠ p) (hpo : p ≠ o) : w = o := by
  cases w <;> cases p <;> cases o <;> simp_all

theorem cellAt_set_self (b : Board) (m : Nat) (v : Cell) (hm : m < b.length) :
    cellAt (b.set m v) m = v := by
  rw [cellAt, List.getD_eq_getElem?_getD, List.getElem?_set_self (by simpa using hm)]
  rfl

theorem cellAt_set_ne (b : Board) (m i : Nat) (v : Cell) (h : m ≠ i) :
    cellAt (b.set m v) i = cellAt b i := by
  rw [cellAt, cellAt, List.getD_eq_getElem?_getD, List.getD_eq_getElem?_getD,
    List.getElem?_set_ne h]

theorem mem_availableMoves (b : Board) (m : Nat) :
    m ∈ availableMoves b ↔ m < b.length ∧ cellAt b m = none := by
  simp [availableMoves, List.mem_filter, List.mem_range]

theorem availableMoves_ne_nil (b : Board) (hw : checkTicTacToeWinner b = none) :
    availableMoves b ≠ [] := by
  rw [checkTicTacToeWinner] at hw
  cases hf : winPatterns.find? (lineWin b) with
  | some tr =>
    simp only [hf] at hw
    have hlw := List.find?_some hf
    cases hc : cellAt b tr.1 with
    | none => rw [lineWin, hc] at hlw; exact absurd hlw (by simp)
    | some q => simp [hc] at hw
  | none =>
    simp only [hf] at hw
    by_cases hall : b.all (fun c => decide (c ≠ none)) = true
    · rw [if_pos hall] at hw; exact absurd hw (by simp)
    · have : ∃ c ∈ b, c = none := by
        by_contra hno
        push_neg at hno
        exact hall (List.all_eq_true.mpr (fun c hc => by simp [hno c hc]))
      obtain ⟨c, hcb, hcn⟩ := this
      obtain ⟨i, hi, hget⟩ := List.getElem_of_mem hcb
      have hcell : cellAt b i = none := by
        rw [cellAt, List.getD_eq_getElem?_getD, List.getElem?_eq_getElem hi, hget, hcn]
        rfl
      exact List.ne_nil_of_mem ((mem_availableMoves b i).mpr ⟨hi, hcell⟩)

theorem availableMoves_length_le (b : Board) :
    (availableMoves b).length ≤ b.length := by
  calc (availableMoves b).length ≤ (List.range b.length).length :=
        List.length_filter_le _ _
    _ = b.length := List.length_range b.length

theorem countP_lt_of_mem {α : Type} (l : List α) (q q' : α → Bool) (x : α)
    (hx : x ∈ l) (hq : q x = true) (hq' : q' x = false)
    (himp : ∀ y ∈ l, q' y = true → q y = true) :
    l.countP q' < l.countP q := by
  induction l with
  | nil => simp at hx
  | cons a rest ih =>
    rw [List.countP_cons, List.countP_cons]
    rcases List.mem_cons.mp hx with rfl | hxr
    · rw [hq, hq', if_pos rfl, if_neg Bool.false_ne_true]
      have hmono : rest.countP q' ≤ rest.countP q :=
        List.countP_mono_left (fun y hy => himp y (List.mem_cons_of_mem x hy))
      omega
    · have hlt := ih hxr (fun y hy => himp y (List.mem_cons_of_mem a hy))
      have ha := himp a (List.mem_cons_self a rest)
      by_cases hqa : q' a = true
      · rw [hqa, ha hqa, if_pos rfl]; omega
      · rw [Bool.not_eq_true] at hqa
        rw [hqa, if_neg Bool.false_ne_true]
        by_cases hq2 : q a = true
        · rw [hq2, if_pos rfl]; omega
        · rw [Bool.not_eq_true] at hq2
          rw [hq2, if_neg Bool.false_ne_true]
          omega

theorem availableMoves_set_length_lt (b : Board) (m : Nat) (v : Player)
    (hm : m ∈ availableMoves b) :
    (availableMoves (b.set m (some v))).length < (availableMoves b).length := by
  obtain ⟨hlt, hc⟩ := (mem_availableMoves b m).mp hm
  rw [availableMoves, availableMoves, List.length_set,
    ← List.countP_eq_length_filter, ← List.countP_eq_length_filter]
  apply countP_lt_of_mem (List.range b.length) _ _ m (List.mem_range.mpr hlt)
  · exact decide_eq_true hc
  · exact decide_eq_false (by rw [cellAt_set_self b m (some v) hlt]; simp)
  · intro y _ hy
    by_cases hym : y = m
    · rw [hym] at hy
      rw [cellAt_set_self b m (some v) hlt] at hy
      exact absurd hy (by simp)
    · rwa [cellAt_set_ne b m y (some v) (fun h => hym h.symm)] at hy

theorem find?_lineWin_eq_none (b : Board)
    (hw : checkTicTacToeWinner b = none) :
    winPatterns.find? (lineWin b) = none := by
  cases hf : winPatterns.find? (lineWin b) with
  | none => rfl
  | some tr =>
    rw [checkTicTacToeWinner] at hw
    simp only [hf] at hw
    have hlw := List.find?_some hf
    cases hc : cellAt b tr.1 with
    | none => rw [lineWin, hc] at hlw; exact absurd hlw (by simp)
    | some q => simp [hc] at hw

/-- Placing `p`'s symbol on an empty cell of a winnerless board cannot create a
line for the other player `o`. -/
theorem checkWinner_set_ne_won (b : Board) (m : Nat) (p o : Player)
    (hpo : p ≠ o) (hw : checkTicTacToeWinner b = none) (hm : m ∈ availableMoves b) :
    checkTicTacToeWinner (b.set m (some p)) ≠ some (Outcome.won o) := by
  intro hcon
  obtain ⟨hlt, _⟩ := (mem_availableMoves b m).mp hm
  rw [checkTicTacToeWinner] at hcon
  cases hf : winPatterns.find? (lineWin (b.set m (some p))) with
  | none =>
    simp only [hf] at hcon
    by_cases hall : (b.set m (some p)).all (fun c => decide (c ≠ none)) = true
    · rw [if_pos hall] at hcon; exact absurd hcon (by simp)
    · rw [if_neg hall] at hcon; exact absurd hcon (by simp)
  | some tr =>
    simp only [hf] at hcon
    have hlw := List.find?_some hf
    have htr := List.mem_of_find?_eq_some hf
    cases hc1 : cellAt (b.set m (some p)) tr.1 with
    | none => simp [hc1] at hcon
    | some q =>
      simp only [hc1, Option.some.injEq, Outcome.won.injEq] at hcon
      subst q
      rw [lineWin, hc1] at hlw
      simp only [Bool.and_eq_true, decide_eq_true_eq] at hlw
      have hmp : cellAt (b.set m (some p)) m = some p :=
        cellAt_set_self b m (some p) hlt
      have hback : ∀ i : Nat, cellAt (b.set m (some p)) i = some o →
          cellAt b i = some o := by
        intro i hi
        by_cases him : m = i
        · subst him
          rw [hmp] at hi
          exact absurd (Option.some.inj hi) hpo
        · rwa [cellAt_set_ne b m i (some p) him] at hi
      have hlwb : lineWin b tr = true := by
        rw [lineWin, hback tr.1 hc1]
        rw [Bool.and_eq_true]
        exact ⟨decide_eq_true (hback tr.2.1 hlw.1),
               decide_eq_true (hback tr.2.2 hlw.2)⟩
      have := List.find?_eq_none.mp (find?_lineWin_eq_none b hw) tr htr
      exact this hlwb

/-! ### Folds used by `minimax` to pick the best move -/

theorem foldl_max_acc_or_mem (l : List MMove) (acc : MMove) :
    l.foldl (fun best mv => if mv.score > best.score then mv else best) acc = acc ∨
    l.foldl (fun best mv => if mv.score > best.score then mv else best) acc ∈ l := by
  induction l generalizing acc with
  | nil => exact Or.inl rfl
  | cons mv rest ih =>
    rw [List.foldl_cons]
    rcases ih (if mv.score > acc.score then mv else acc) with h | h
    · rw [h]
      by_cases hgt : mv.score > acc.score
      · rw [if_pos hgt]; exact Or.inr (List.mem_cons_self mv rest)
      · rw [if_neg hgt]; exact Or.inl rfl
    · exact Or.inr (List.mem_cons_of_mem mv h)

theorem foldl_max_score_ge (l : List MMove) (acc : MMove) :
    acc.score ≤ (l.foldl (fun best mv => if mv.score > best.score then mv else best) acc).score ∧
    ∀ mv ∈ l,
      mv.score ≤ (l.foldl (fun best mv => if mv.score > best.score then mv else best) acc).score := by
  induction l generalizing acc with
  | nil => simp
  | cons mv rest ih =>
    rw [List.foldl_cons]
    have ih' := ih (if mv.score > acc.score then mv else acc)
    constructor
    · refine le_trans ?_ ih'.1
      by_cases hgt : mv.score > acc.score
      · rw [if_pos hgt]; omega
      · rw [if_neg hgt]
    · intro x hx
      rcases List.mem_cons.mp hx with rfl | hxr
      · refine le_trans ?_ ih'.1
        by_cases hgt : x.score > acc.score
        · rw [if_pos hgt]
        · rw [if_neg hgt]; omega
      · exact ih'.2 x hxr

theorem foldl_min_acc_or_mem (l : List MMove) (acc : MMove) :
    l.foldl (fun best mv => if mv.score < best.score then mv else best) acc = acc ∨
    l.foldl (fun best mv => if mv.score < best.score then mv else best) acc ∈ l := by
  induction l generalizing acc with
  | nil => exact Or.inl rfl
  | cons mv rest ih =>
    rw [List.foldl_cons]
    rcases ih (if mv.score < acc.score then mv else acc) with h | h
    · rw [h]
      by_cases hgt : mv.score < acc.score
      · rw [if_pos hgt]; exact Or.inr (List.mem_cons_self mv rest)
      · rw [if_neg hgt]; exact Or.inl rfl
    · exact Or.inr (List.mem_cons_of_mem mv h)

theorem foldl_min_score_le (l : List MMove) (acc : MMove) :
    (l.foldl (fun best mv => if mv.score < best.score then mv else best) acc).score ≤ acc.score ∧
    ∀ mv ∈ l,
      (l.foldl (fun best mv => if mv.score < best.score then mv else best) acc).score ≤ mv.score := by
  induction l generalizing acc with
  | nil => simp
  | cons mv rest ih =>
    rw [List.foldl_cons]
    have ih' := ih (if mv.score < acc.score then mv else acc)
    constructor
    · refine le_trans ih'.1 ?_
      by_cases hgt : mv.score < acc.score
      · rw [if_pos hgt]; omega
      · rw [if_neg hgt]
    · intro x hx
      rcases List.mem_cons.mp hx with rfl | hxr
      · refine le_trans ih'.1 ?_
        by_cases hgt : x.score < acc.score
        · rw [if_pos hgt]
        · rw [if_neg hgt]; omega
      · exact ih'.2 x hxr

theorem foldl_max_stay (l : List MMove) (acc : MMove)
    (h : ∀ mv ∈ l, ¬ mv.score > acc.score) :
    l.foldl (fun best mv => if mv.score > best.score then mv else best) acc = acc := by
  induction l with
  | nil => rfl
  | cons mv rest ih =>
    rw [List.foldl_cons, if_neg (h mv (List.mem_cons_self mv rest))]
    exact ih (fun x hx => h x (List.mem_cons_of_mem mv hx))

theorem foldl_max_first_zero_aux (l : List MMove) (acc : MMove)
    (hacc : acc.score = -10)
    (hl : ∀ mv ∈ l, mv.score = -10 ∨ mv.score = 0) :
    l.foldl (fun best mv => if mv.score > best.score then mv else best) acc =
      (l.find? (fun mv => decide (mv.score = 0))).getD acc := by
  induction l generalizing acc with
  | nil => rfl
  | cons mv rest ih =>
    rw [List.foldl_cons, List.find?_cons]
    rcases hl mv (List.mem_cons_self mv rest) with hs | hs
    · rw [if_neg (by omega)]
      have hdec : decide (mv.score = 0) = false := decide_eq_false (by omega)
      rw [hdec]
      exact ih acc hacc (fun x hx => hl x (List.mem_cons_of_mem mv hx))
    · rw [if_pos (by omega)]
      have hdec : decide (mv.score = 0) = true := decide_eq_true hs
      rw [hdec]
      rw [foldl_max_stay rest mv (fun x hx => by
        rcases hl x (List.mem_cons_of_mem mv hx) with h | h <;> omega)]
      rfl

theorem foldl_max_first_zero (l : List MMove)
    (hl : ∀ mv ∈ l, mv.score = -10 ∨ mv.score = 0) :
    l.foldl (fun best mv => if mv.score > best.score then mv else best)
        { index := none, score := -10000 } =
      (l.find? (fun mv => decide (mv.score = 0))).getD
        (l.headD { index := none, score := -10000 }) := by
  cases l with
  | nil => rfl
  | cons mv rest =>
    rw [List.foldl_cons, List.find?_cons,
      if_pos (show mv.score > ({ index := none, score := -10000 } : MMove).score by
        rcases hl mv (List.mem_cons_self mv rest) with h | h <;>
          (show mv.score > -10000; omega))]
    rcases hl mv (List.mem_cons_self mv rest) with hs | hs
    · have hdec : decide (mv.score = 0) = false := decide_eq_false (by omega)
      rw [hdec]
      rw [foldl_max_first_zero_aux rest mv hs
        (fun x hx => hl x (List.mem_cons_of_mem mv hx))]
      cases hf : rest.find? (fun mv => decide (mv.score = 0)) <;> simp [hf]
    · have hdec : decide (mv.score = 0) = true := decide_eq_true hs
      rw [hdec]
      rw [foldl_max_stay rest mv (fun x hx => by
        rcases hl x (List.mem_cons_of_mem mv hx) with h | h <;> omega)]
      rfl

theorem find?_congr {α : Type} (l : List α) (p q : α → Bool)
    (h : ∀ x ∈ l, p x = q x) : l.find? p = l.find? q := by
  induction l with
  | nil => rfl
  | cons a rest ih =>
    rw [List.find?_cons, List.find?_cons, h a (List.mem_cons_self a rest)]
    cases hq : q a with
    | true => rfl
    | false => exact ih (fun x hx => h x (List.mem_cons_of_mem a hx))

/-! ### `minimax` score characterisation -/

/-- With two distinct players, every `minimax` score is `-10`, `0` or `10`. -/
theorem minimax_score_range (fuel : Nat) (b : Board) (p o a : Player) (hpo : p ≠ o) :
    (minimax fuel b p o a).score = -10 ∨ (minimax fuel b p o a).score = 0 ∨
    (minimax fuel b p o a).score = 10 := by
  induction fuel generalizing b p o with
  | zero => right; left; rfl
  | succ n ih =>
    cases hcw : checkTicTacToeWinner b with
    | some out =>
      cases out with
      | won w =>
        by_cases hw : w = p
        · subst hw
          simp [minimax, hcw]
        · have hwo : w = o := Player.eq_of_ne_of_ne w p o hw hpo
          subst hwo
          simp [minimax, hcw, Ne.symm hpo]
      | tie => simp [minimax, hcw]
    | none =>
      simp only [minimax, hcw]
      rw [if_neg (by simp), if_neg (by simp), if_neg (by simp)]
      have hnil : (availableMoves b).map (fun m =>
          ({ index := some m,
             score := (minimax n (b.set m (some p)) o p a).score } : MMove)) ≠ [] := by
        simp [availableMoves_ne_nil b hcw]
      have hmem : ∀ mv ∈ (availableMoves b).map (fun m =>
          ({ index := some m,
             score := (minimax n (b.set m (some p)) o p a).score } : MMove)),
          mv.score = -10 ∨ mv.score = 0 ∨ mv.score = 10 := by
        intro mv hmv
        obtain ⟨m, _, rfl⟩ := List.mem_map.mp hmv
        exact ih (b.set m (some p)) o p hpo.symm
      by_cases hpa : p = a
      · rw [if_pos hpa]
        rcases foldl_max_acc_or_mem ((availableMoves b).map _)
            { index := none, score := -10000 } with hcase | hcase
        · exfalso
          obtain ⟨mv₀, hmv₀⟩ := List.exists_mem_of_ne_nil _ hnil
          have hge := (foldl_max_score_ge _ { index := none, score := -10000 }).2 mv₀ hmv₀
          rw [hcase] at hge
          have hge' : mv₀.score ≤ -10000 := hge
          rcases hmem mv₀ hmv₀ with h | h | h <;> omega
        · exact hmem _ hcase
      · rw [if_neg hpa]
        rcases foldl_min_acc_or_mem ((availableMoves b).map _)
            { index := none, score := 10000 } with hcase | hcase
        · exfalso
          obtain ⟨mv₀, hmv₀⟩ := List.exists_mem_of_ne_nil _ hnil
          have hle := (foldl_min_score_le _ { index := none, score := 10000 }).2 mv₀ hmv₀
          rw [hcase] at hle
          have hle' : (10000 : Int) ≤ mv₀.score := hle
          rcases hmem mv₀ hmv₀ with h | h | h <;> omega
        · exact hmem _ hcase

/-- Bridge between `minimax` and the short-circuiting `scoreIsNeg`: on the calls
the recursion actually makes (the mover has not already won, enough fuel), the
score is `-10` when `scoreIsNeg` holds and `0` otherwise. -/
theorem minimax_score_eq_scoreIsNeg (fuel : Nat) (b : Board) (p o a : Player)
    (hpo : p ≠ o)
    (hw : checkTicTacToeWinner b ≠ some (Outcome.won p))
    (hfuel : (availableMoves b).length < fuel) :
    (minimax fuel b p o a).score = if scoreIsNeg fuel b p o a then -10 else 0 := by
  induction fuel generalizing b p o with
  | zero => omega
  | succ n ih =>
    cases hcw : checkTicTacToeWinner b with
    | some out =>
      cases out with
      | won w =>
        have hwp : w ≠ p := fun h => hw (by rw [hcw, h])
        have hwo : w = o := Player.eq_of_ne_of_ne w p o hwp hpo
        subst hwo
        simp [minimax, scoreIsNeg, hcw, Ne.symm hpo]
      | tie => simp [minimax, scoreIsNeg, hcw]
    | none =>
      have hchild : ∀ m ∈ availableMoves b,
          (minimax n (b.set m (some p)) o p a).score =
            if scoreIsNeg n (b.set m (some p)) o p a then -10 else 0 := by
        intro m hm
        refine ih (b.set m (some p)) o p hpo.symm
          (checkWinner_set_ne_won b m p o hpo hcw hm) ?_
        have := availableMoves_set_length_lt b m p hm
        omega
      have hmem2 : ∀ mv ∈ (availableMoves b).map (fun m =>
          ({ index := some m,
             score := (minimax n (b.set m (some p)) o p a).score } : MMove)),
          mv.score = -10 ∨ mv.score = 0 := by
        intro mv hmv
        obtain ⟨m, hm, rfl⟩ := List.mem_map.mp hmv
        rw [hchild m hm]
        by_cases hb : scoreIsNeg n (b.set m (some p)) o p a
        · rw [if_pos hb]; exact Or.inl rfl
        · rw [if_neg hb]; exact Or.inr rfl
      have hnil : (availableMoves b).map (fun m =>
          ({ index := some m,
             score := (minimax n (b.set m (some p)) o p a).score } : MMove)) ≠ [] := by
        simp [availableMoves_ne_nil b hcw]
      simp only [minimax, scoreIsNeg, hcw]
      rw [if_neg (by simp), if_neg (by simp), if_neg (by simp)]
      by_cases hpa : p = a
      · rw [if_pos hpa, if_pos hpa]
        by_cases hall : (availableMoves b).all
            (fun m => scoreIsNeg n (b.set m (some p)) o p a) = true
        · rw [if_pos hall]
          have hallneg : ∀ mv ∈ (availableMoves b).map (fun m =>
              ({ index := some m,
                 score := (minimax n (b.set m (some p)) o p a).score } : MMove)),
              mv.score = -10 := by
            intro mv hmv
            obtain ⟨m, hm, rfl⟩ := List.mem_map.mp hmv
            rw [hchild m hm, if_pos (List.all_eq_true.mp hall m hm)]
          rcases foldl_max_acc_or_mem ((availableMoves b).map _)
              { index := none, score := -10000 } with hcase | hcase
          · exfalso
            obtain ⟨mv₀, hmv₀⟩ := List.exists_mem_of_ne_nil _ hnil
            have hge := (foldl_max_score_ge _ { index := none, score := -10000 }).2 mv₀ hmv₀
            rw [hcase] at hge
            have hge' : mv₀.score ≤ -10000 := hge
            have := hallneg mv₀ hmv₀
            omega
          · exact hallneg _ hcase
        · rw [if_neg hall]
          obtain ⟨m₀, hm₀, hb₀⟩ : ∃ m ∈ availableMoves b,
              ¬ scoreIsNeg n (b.set m (some p)) o p a = true := by
            by_contra hcon
            push_neg at hcon
            exact hall (List.all_eq_true.mpr hcon)
          have hsc₀ : (minimax n (b.set m₀ (some p)) o p a).score = 0 := by
            rw [hchild m₀ hm₀, if_neg hb₀]
          have hmv₀mem := List.mem_map_of_mem (fun m => ({ index := some m, score := (minimax n (b.set m (some p)) o p a).score } : MMove)) hm₀
          have hge := (foldl_max_score_ge ((availableMoves b).map _)
            { index := none, score := -10000 }).2 _ hmv₀mem
          rcases foldl_max_acc_or_mem ((availableMoves b).map _)
              { index := none, score := -10000 } with hcase | hcase
          · exfalso
            rw [hcase] at hge
            have hge' : (minimax n (b.set m₀ (some p)) o p a).score ≤ -10000 := hge
            omega
          · rcases hmem2 _ hcase with h | h
            · exfalso
              rw [h] at hge
              have hge2 : (minimax n (b.set m₀ (some p)) o p a).score ≤ -10 := hge
              omega
            · exact h
      · rw [if_neg hpa, if_neg hpa]
        by_cases hany : (availableMoves b).any
            (fun m => scoreIsNeg n (b.set m (some p)) o p a) = true
        · rw [if_pos hany]
          obtain ⟨m₀, hm₀, hb₀⟩ := List.any_eq_true.mp hany
          have hsc₀ : (minimax n (b.set m₀ (some p)) o p a).score = -10 := by
            rw [hchild m₀ hm₀, if_pos hb₀]
          have hmv₀mem := List.mem_map_of_mem (fun m => ({ index := some m, score := (minimax n (b.set m (some p)) o p a).score } : MMove)) hm₀
          have hle := (foldl_min_score_le ((availableMoves b).map _)
            { index := none, score := 10000 }).2 _ hmv₀mem
          rcases foldl_min_acc_or_mem ((availableMoves b).map _)
              { index := none, score := 10000 } with hcase | hcase
          · exfalso
            rw [hcase] at hle
            have hle' : (10000 : Int) ≤ (minimax n (b.set m₀ (some p)) o p a).score := hle
            omega
          · rcases hmem2 _ hcase with h | h
            · exact h
            · exfalso
              have hle2 : (minimax n (b.set m₀ (some p)) o p a).score ≥ 0 := by
                rw [h] at hle
                exact hle
              omega
        · rw [if_neg hany]
          have hallzero : ∀ mv ∈ (availableMoves b).map (fun m =>
              ({ index := some m,
                 score := (minimax n (b.set m (some p)) o p a).score } : MMove)),
              mv.score = 0 := by
            intro mv hmv
            obtain ⟨m, hm, rfl⟩ := List.mem_map.mp hmv
            have hnb : ¬ scoreIsNeg n (b.set m (some p)) o p a = true := by
              intro hb
              exact hany (List.any_eq_true.mpr ⟨m, hm, hb⟩)
            rw [hchild m hm, if_neg hnb]
          rcases foldl_min_acc_or_mem ((availableMoves b).map _)
              { index := none, score := 10000 } with hcase | hcase
          · exfalso
            obtain ⟨mv₀, hmv₀⟩ := List.exists_mem_of_ne_nil _ hnil
            have hle := (foldl_min_score_le _ { index := none, score := 10000 }).2 mv₀ hmv₀
            rw [hcase] at hle
            have hle' : (10000 : Int) ≤ mv₀.score := hle
            have := hallzero mv₀ hmv₀
            omega
          · exact hallzero _ hcase

/-- On a non-terminal board, the hard AI's move equals the short-circuiting
`hardAIMoveFast`. -/
theorem getTicTacToeAIMoveHard_eq_fast (b : Board) (human ai : Player)
    (hpo : ai ≠ human) (hw : checkTicTacToeWinner b = none) :
    getTicTacToeAIMoveHard b human ai = hardAIMoveFast b human ai := by
  have hchild : ∀ m ∈ availableMoves b,
      (minimax b.length (b.set m (some ai)) human ai ai).score =
        if scoreIsNeg b.length (b.set m (some ai)) human ai ai then -10 else 0 := by
    intro m hm
    refine minimax_score_eq_scoreIsNeg b.length (b.set m (some ai)) human ai ai
      (Ne.symm hpo) (checkWinner_set_ne_won b m ai human hpo hw hm) ?_
    have h1 := availableMoves_set_length_lt b m ai hm
    have h2 := availableMoves_length_le b
    omega
  have hml : ∀ mv ∈ (availableMoves b).map (fun m =>
      ({ index := some m,
         score := (minimax b.length (b.set m (some ai)) human ai ai).score } : MMove)),
      mv.score = -10 ∨ mv.score = 0 := by
    intro mv hmv
    obtain ⟨m, hm, rfl⟩ := List.mem_map.mp hmv
    rw [hchild m hm]
    by_cases hb : scoreIsNeg b.length (b.set m (some ai)) human ai ai
    · rw [if_pos hb]; exact Or.inl rfl
    · rw [if_neg hb]; exact Or.inr rfl
  rw [getTicTacToeAIMoveHard, hardAIMoveFast]
  simp only [minimax, hw]
  rw [if_neg (by simp), if_neg (by simp), if_neg (by simp), if_pos trivial]
  rw [foldl_max_first_zero _ hml]
  rw [List.find?_map]
  have hcongr : (availableMoves b).find?
      ((fun mv => decide (mv.score = 0)) ∘ (fun m =>
        ({ index := some m,
           score := (minimax b.length (b.set m (some ai)) human ai ai).score } : MMove))) =
      (availableMoves b).find?
        (fun m => !scoreIsNeg b.length (b.set m (some ai)) human ai ai) := by
    refine find?_congr _ _ _ (fun m hm => ?_)
    simp only [Function.comp]
    rw [hchild m hm]
    by_cases hb : scoreIsNeg b.length (b.set m (some ai)) human ai ai
    · rw [if_pos hb]
      rw [show scoreIsNeg b.length (b.set m (some ai)) human ai ai = true from hb]
      simp
    · rw [if_neg hb]
      rw [show scoreIsNeg b.length (b.set m (some ai)) human ai ai = false from
        Bool.not_eq_true _ ▸ hb]
      simp
  rw [hcongr]
  cases hf : (availableMoves b).find?
      (fun m => !scoreIsNeg b.length (b.set m (some ai)) human ai ai) with
  | some m₀ => simp
  | none =>
    cases havail : availableMoves b with
    | nil => simp
    | cons c rest => simp

/-- `runHardGame` agrees with its short-circuiting variant. -/
theorem runHardGame_eq_fast (human ai : Player) (hpo : ai ≠ human)
    (ms : List Nat) (b : Board) :
    runHardGame human ai b ms = runHardGameFast human ai b ms := by
  induction ms generalizing b with
  | nil => rfl
  | cons m rest ih =>
    rw [runHardGame, runHardGameFast]
    by_cases hc : cellAt b m ≠ none
    · rw [if_pos hc, if_pos hc]
      exact ih b
    · rw [if_neg hc, if_neg hc]
      cases hw1 : checkTicTacToeWinner (b.set m (some human)) with
      | some w => simp only [hw1]
      | none =>
        simp only [hw1]
        rw [getTicTacToeAIMoveHard_eq_fast (b.set m (some human)) human ai hpo hw1]
        cases hai : hardAIMoveFast (b.set m (some human)) human ai with
        | some k =>
          simp only []
          cases hw2 : checkTicTacToeWinner ((b.set m (some human)).set k (some ai)) with
          | some w => simp only [hw2]
          | none =>
            simp only [hw2]
            exact ih _
        | none =>
          simp only []
          exact ih _

set_option maxHeartbeats 4000000 in
/-- Claim C2 (code bug): the hard AI is beatable.  `minimax` scores leaves
relative to the player to move (an immediate AI win is worth `-10` to the
maximiser), so after the human opens at cell 0 every AI reply scores `-10` and
the AI takes the first free cell.  The human move sequence 0, 2, 4, 6 from the
empty board draws replies 1, 3, 5 and wins on the 2-4-6 diagonal — so hard
games can end in a human win, contradicting the claim. -/
theorem hard_ai_beaten_by_human :
    (runHardGame Player.X Player.O emptyBoard [0, 2, 4, 6]).2 =
      some (Outcome.won Player.X) := by
  rw [runHardGame_eq_fast Player.X Player.O (by decide)]
  rfl

/-- Amended claim C3: in the minimax recursion the utility of a terminal leaf
is `+10` exactly when the player to move at that node has won, `-10` exactly
when that player's opponent has won (NOT relative to the AI), and `0` for a
tie, with no depth discount; at every non-terminal node the mover whose symbol
equals the AI symbol takes the maximum of the child scores while the other
mover takes the minimum. -/
theorem minimax_mover_relative_utilities (fuel : Nat) (b : Board) (p o a : Player)
    (hpo : p ≠ o) :
    (∀ w, checkTicTacToeWinner b = some (Outcome.won w) →
      minimax (fuel + 1) b p o a =
        { index := none, score := if w = p then 10 else -10 }) ∧
    (checkTicTacToeWinner b = some Outcome.tie →
      minimax (fuel + 1) b p o a = { index := none, score := 0 }) ∧
    (checkTicTacToeWinner b = none → p = a →
      ((minimax (fuel + 1) b p o a).score ∈
         (availableMoves b).map (fun m => (minimax fuel (b.set m (some p)) o p a).score) ∧
       ∀ s ∈ (availableMoves b).map (fun m => (minimax fuel (b.set m (some p)) o p a).score),
         s ≤ (minimax (fuel + 1) b p o a).score)) ∧
    (checkTicTacToeWinner b = none → p ≠ a →
      ((minimax (fuel + 1) b p o a).score ∈
         (availableMoves b).map (fun m => (minimax fuel (b.set m (some p)) o p a).score) ∧
       ∀ s ∈ (availableMoves b).map (fun m => (minimax fuel (b.set m (some p)) o p a).score),
         (minimax (fuel + 1) b p o a).score ≤ s)) := by
  refine ⟨?_, ?_, ?_, ?_⟩
  · intro w hcw
    by_cases hwp : w = p
    · subst hwp
      simp [minimax, hcw]
    · have hwo : w = o := Player.eq_of_ne_of_ne w p o hwp hpo
      subst hwo
      simp [minimax, hcw, Ne.symm hpo, hwp]
  · intro hcw
    simp [minimax, hcw]
  · intro hcw hpa
    have heq : minimax (fuel + 1) b p o a =
        ((availableMoves b).map (fun m =>
          ({ index := some m,
             score := (minimax fuel (b.set m (some p)) o p a).score } : MMove))).foldl
          (fun best mv => if mv.score > best.score then mv else best)
          { index := none, score := -10000 } := by
      simp only [minimax, hcw]
      rw [if_neg (by simp), if_neg (by simp), if_neg (by simp), if_pos (by exact hpa)]
    constructor
    · rcases foldl_max_acc_or_mem ((availableMoves b).map (fun m =>
          ({ index := some m,
             score := (minimax fuel (b.set m (some p)) o p a).score } : MMove)))
          { index := none, score := -10000 } with hcase | hcase
      · exfalso
        have hr := minimax_score_range (fuel + 1) b p o a hpo
        rw [heq, hcase] at hr
        simp at hr
      · obtain ⟨m, hm, hgm⟩ := List.mem_map.mp hcase
        rw [heq, ← hgm]
        exact List.mem_map_of_mem _ hm
    · intro s hs
      obtain ⟨m, hm, rfl⟩ := List.mem_map.mp hs
      have hle := (foldl_max_score_ge ((availableMoves b).map (fun m =>
          ({ index := some m,
             score := (minimax fuel (b.set m (some p)) o p a).score } : MMove)))
          { index := none, score := -10000 }).2 _
        (List.mem_map_of_mem (fun m =>
          ({ index := some m,
             score := (minimax fuel (b.set m (some p)) o p a).score } : MMove)) hm)
      rw [heq]
      exact hle
  · intro hcw hpa
    have heq : minimax (fuel + 1) b p o a =
        ((availableMoves b).map (fun m =>
          ({ index := some m,
             score := (minimax fuel (b.set m (some p)) o p a).score } : MMove))).foldl
          (fun best mv => if mv.score < best.score then mv else best)
          { index := none, score := 10000 } := by
      simp only [minimax, hcw]
      rw [if_neg (by simp), if_neg (by simp), if_neg (by simp), if_neg hpa]
    constructor
    · rcases foldl_min_acc_or_mem ((availableMoves b).map (fun m =>
          ({ index := some m,
             score := (minimax fuel (b.set m (some p)) o p a).score } : MMove)))
          { index := none, score := 10000 } with hcase | hcase
      · exfalso
        have hr := minimax_score_range (fuel + 1) b p o a hpo
        rw [heq, hcase] at hr
        simp at hr
      · obtain ⟨m, hm, hgm⟩ := List.mem_map.mp hcase
        rw [heq, ← hgm]
        exact List.mem_map_of_mem _ hm
    · intro s hs
      obtain ⟨m, hm, rfl⟩ := List.mem_map.mp hs
      have hle := (foldl_min_score_le ((availableMoves b).map (fun m =>
          ({ index := some m,
             score := (minimax fuel (b.set m (some p)) o p a).score } : MMove)))
          { index := none, score := 10000 }).2 _
        (List.mem_map_of_mem (fun m =>
          ({ index := some m,
             score := (minimax fuel (b.set m (some p)) o p a).score } : MMove)) hm)
      rw [heq]
      exact hle

/-- Witness for C3 (amended): at a leaf where the AI (`O`) has won and the
human (`X`) moves, the utility is `-10` — the mover-relative value. -/
theorem minimax_mover_relative_utilities_witness :
    minimax (3 + 1) [some Player.O, some Player.O, some Player.O,
        some Player.X, some Player.X, none, none, none, some Player.X]
        Player.X Player.O Player.O =
      { index := none, score := if Player.O = Player.X then 10 else -10 } :=
  (minimax_mover_relative_utilities 3 [some Player.O, some Player.O, some Player.O,
      some Player.X, some Player.X, none, none, none, some Player.X]
    Player.X Player.O Player.O (by decide)).1 Player.O (by decide)

end TicketBot
